import Mathlib

/-!
Verification of the input-token log-probability extractor of the web-llm
repository (the function calculateInputLogprobs, src/unnamed/part_000,
lines 8 to 48).

Modelling choices, stated once here:

* The JavaScript scalar type (IEEE doubles read out of a Float32Array) is
  idealised as a linearly ordered ring; the transcendental helpers
  Math.exp and Math.log are passed in as a record of operations
  (ScalarOps), so the same translation can be instantiated at the real
  numbers (with Real.exp and Real.log, used for the numeric claims) and
  at the integers (with computable placeholder operations, used to
  evaluate layout and control-flow facts on concrete inputs, which do
  not depend on the numeric operations at all).
* Float32Array.subarray clamps its bounds to the buffer like the
  JavaScript method does; an element read past the end of a typed array
  yields undefined in JavaScript and every arithmetic use of it yields
  NaN.  The model reads with List.getD and a default of 0: the default
  is only ever reachable on out-of-range reads, and no theorem below
  relies on the value produced by an out-of-range read (the theorems
  about such inputs only concern the shape of the output, which in the
  source does not depend on the values read).
* The output parameter inputLogprobs, which the source mutates by push,
  is threaded explicitly: the model returns the final contents of the
  array.
-/

/-- Math.exp and Math.log of the host, abstracted over the scalar type. -/
structure ScalarOps (α : Type) where
  exp : α → α
  log : α → α

/-- Line 4 of the source: type ImageURL with a single url field. -/
structure ImageURL where
  url : String
deriving DecidableEq

/-- One element of the chunk array, whose source type is
Array of (Array of number, or ImageURL).  The source discriminates the
two cases with Array.isArray only; the image payload is never read. -/
inductive ChunkItem where
  | tokens (toks : List Nat) : ChunkItem
  | image (iurl : ImageURL) : ChunkItem
deriving DecidableEq

/-- Line 5 of the source: const IMAGE_EMBED_SIZE = 5. -/
def IMAGE_EMBED_SIZE : Nat := 5

variable {α : Type} [LinearOrderedRing α]

/-- Float32Array.subarray on the model buffer: both bounds clamp to the
buffer, and an empty slice results when the start is past the end. -/
def subarray (a : List α) (b e : Nat) : List α :=
  (a.drop b).take (e - b)

/-- Lines 26 to 29 of the source: the running maximum of the first
vocabSize entries of the row.  The JavaScript accumulator starts at
negative infinity, modelled as none; an undefined (out-of-range) read
never updates the accumulator in JavaScript because every comparison
with it is false, and in the model the default value 0 stands in for it
(no theorem depends on that case). -/
def rowMaxVal (tokenLogits : List α) (vocabSize : Nat) : Option α :=
  (List.range vocabSize).foldl
    (fun maxVal j =>
      match maxVal with
      | none => some (tokenLogits.getD j 0)
      | some m =>
          if m < tokenLogits.getD j 0 then some (tokenLogits.getD j 0) else some m)
    none

/-- Lines 26 to 35 of the source: the numerically stable log-softmax
score of one token against one row of logits.  maxVal is the running
maximum (its default 0 is reachable only when vocabSize = 0, where the
JavaScript value would be negative infinity; no theorem uses that
case), sumExp is the accumulated sum of shifted exponentials, and the
result is tokenLogits[token] - (log sumExp + maxVal). -/
def scoreToken (ops : ScalarOps α) (tokenLogits : List α) (vocabSize : Nat)
    (token : Nat) : α :=
  let maxVal := (rowMaxVal tokenLogits vocabSize).getD 0
  let sumExp := (List.range vocabSize).foldl
    (fun s j => s + ops.exp (tokenLogits.getD j 0 - maxVal)) 0
  let logSumExp := ops.log sumExp + maxVal
  tokenLogits.getD token 0 - logSumExp

/-- Lines 18 to 42 of the source: the inner for loop over one token
run.  For each token: if the current offset is positive, slice the row
at the previous offset out of the buffer and push its score, otherwise
push the sentinel 0.0; then increment the offset.  Returns the final
offset together with the final contents of inputLogprobs. -/
def processTokens (ops : ScalarOps α) (logitsOnCPUArray : List α)
    (vocabSize : Nat) (toks : List Nat) (currentOffset : Nat)
    (inputLogprobs : List α) : Nat × List α :=
  match toks with
  | [] => (currentOffset, inputLogprobs)
  | token :: rest =>
      if currentOffset > 0 then
        let prevLogitIndex := currentOffset - 1
        let tokenLogits := subarray logitsOnCPUArray
          (prevLogitIndex * vocabSize) ((prevLogitIndex + 1) * vocabSize)
        processTokens ops logitsOnCPUArray vocabSize rest (currentOffset + 1)
          (inputLogprobs ++ [scoreToken ops tokenLogits vocabSize token])
      else
        processTokens ops logitsOnCPUArray vocabSize rest (currentOffset + 1)
          (inputLogprobs ++ [(0 : α)])

/-- Lines 15 to 47 of the source: the outer for loop over the chunk
items.  A token run is handled by processTokens; any other item (an
ImageURL) only advances the offset by IMAGE_EMBED_SIZE. -/
def processChunk (ops : ScalarOps α) (logitsOnCPUArray : List α)
    (vocabSize : Nat) (chunk : List ChunkItem) (currentOffset : Nat)
    (inputLogprobs : List α) : Nat × List α :=
  match chunk with
  | [] => (currentOffset, inputLogprobs)
  | ChunkItem.tokens toks :: rest =>
      let st := processTokens ops logitsOnCPUArray vocabSize toks currentOffset
        inputLogprobs
      processChunk ops logitsOnCPUArray vocabSize rest st.1 st.2
  | ChunkItem.image _ :: rest =>
      processChunk ops logitsOnCPUArray vocabSize rest
        (currentOffset + IMAGE_EMBED_SIZE) inputLogprobs

/-- Lines 8 to 48 of the source: calculateInputLogprobs.  The source
mutates inputLogprobs and returns nothing; the model returns the final
contents of inputLogprobs. -/
def calculateInputLogprobs (ops : ScalarOps α) (logitsOnCPUArray : List α)
    (chunk : List ChunkItem) (vocabSize : Nat) (inputLogprobs : List α) :
    List α :=
  (processChunk ops logitsOnCPUArray vocabSize chunk 0 inputLogprobs).2

/-- Total number of token ids across the token runs of a chunk. -/
def totalTokens : List ChunkItem → Nat
  | [] => 0
  | ChunkItem.tokens toks :: rest => toks.length + totalTokens rest
  | ChunkItem.image _ :: rest => totalTokens rest

/-- Total number of sequence positions a chunk lays claim to: one per
token id, IMAGE_EMBED_SIZE per image item. -/
def chunkPositions : List ChunkItem → Nat
  | [] => 0
  | ChunkItem.tokens toks :: rest => toks.length + chunkPositions rest
  | ChunkItem.image _ :: rest => IMAGE_EMBED_SIZE + chunkPositions rest

/-- The (global position, token id) pairs of one token run starting at a
given offset. -/
def runPositions : List Nat → Nat → List (Nat × Nat)
  | [], _ => []
  | t :: ts, o => (o, t) :: runPositions ts (o + 1)

/-- The (global position, token id) pairs of every token of a chunk, in
encounter order, with the cursor starting at a given offset. -/
def tokenPositions : List ChunkItem → Nat → List (Nat × Nat)
  | [], _ => []
  | ChunkItem.tokens toks :: rest, o =>
      runPositions toks o ++ tokenPositions rest (o + toks.length)
  | ChunkItem.image _ :: rest, o =>
      tokenPositions rest (o + IMAGE_EMBED_SIZE)

/-- Row i of the buffer: the slice of vocabSize entries starting at
i * vocabSize, exactly as the source slices it on lines 21 to 24. -/
def logitRow (logitsOnCPUArray : List α) (vocabSize i : Nat) : List α :=
  subarray logitsOnCPUArray (i * vocabSize) ((i + 1) * vocabSize)

/-- The value the scorer emits for the token of one (position, token)
pair: the sentinel 0 at global position 0, and otherwise the score of
the token against the row at the preceding position. -/
def emitAt (ops : ScalarOps α) (logitsOnCPUArray : List α) (vocabSize : Nat)
    (pt : Nat × Nat) : α :=
  if pt.1 > 0 then
    scoreToken ops (logitRow logitsOnCPUArray vocabSize (pt.1 - 1)) vocabSize pt.2
  else 0

/-- The shape of a chunk item with the image payload erased: token runs
keep their tokens, image items are identified. -/
def stripItem : ChunkItem → Option (List Nat)
  | ChunkItem.tokens toks => some toks
  | ChunkItem.image _ => none

/-- Computable instantiation of the scalar operations at the integers,
used only to evaluate layout and control-flow facts on concrete inputs;
the facts evaluated with it are independent of exp and log. -/
def intOps : ScalarOps ℤ where
  exp := fun x => x
  log := fun x => x

/-- Instantiation of the scalar operations at the real numbers with the
genuine exponential and logarithm, matching Math.exp and Math.log. -/
noncomputable def realOps : ScalarOps ℝ where
  exp := Real.exp
  log := Real.log

lemma runPositions_length (ts : List Nat) : ∀ o, (runPositions ts o).length = ts.length := by
  induction ts with
  | nil => intro o; rfl
  | cons t ts ih => intro o; simp [runPositions, ih]

lemma tokenPositions_length (c : List ChunkItem) :
    ∀ o, (tokenPositions c o).length = totalTokens c := by
  induction c with
  | nil => intro o; rfl
  | cons item rest ih =>
      intro o
      cases item with
      | tokens toks => simp [tokenPositions, totalTokens, ih, runPositions_length]
      | image iurl => simp [tokenPositions, totalTokens, ih]

lemma processTokens_eq (ops : ScalarOps α) (L : List α) (v : Nat)
    (toks : List Nat) :
    ∀ (o : Nat) (out : List α),
      processTokens ops L v toks o out
        = (o + toks.length, out ++ (runPositions toks o).map (emitAt ops L v)) := by
  induction toks with
  | nil => intro o out; simp [processTokens, runPositions]
  | cons t ts ih =>
      intro o out
      by_cases h : o > 0
      · rw [processTokens, if_pos h, ih]
        refine Prod.ext ?_ ?_
        · simp; omega
        · simp [runPositions, emitAt, logitRow, h]
      · rw [processTokens, if_neg h, ih]
        refine Prod.ext ?_ ?_
        · simp; omega
        · have ho : o = 0 := by omega
          subst ho
          simp [runPositions, emitAt]

lemma processChunk_eq (ops : ScalarOps α) (L : List α) (v : Nat)
    (c : List ChunkItem) :
    ∀ (o : Nat) (out : List α),
      processChunk ops L v c o out
        = (o + chunkPositions c, out ++ (tokenPositions c o).map (emitAt ops L v)) := by
  induction c with
  | nil => intro o out; simp [processChunk, chunkPositions, tokenPositions]
  | cons item rest ih =>
      intro o out
      cases item with
      | tokens toks =>
          rw [processChunk, processTokens_eq, ih]
          refine Prod.ext ?_ ?_
          · simp [chunkPositions]; omega
          · simp [tokenPositions]
      | image iurl =>
          rw [processChunk, ih]
          refine Prod.ext ?_ ?_
          · simp [chunkPositions]; omega
          · simp [tokenPositions]

lemma calculateInputLogprobs_eq (ops : ScalarOps α) (L : List α)
    (c : List ChunkItem) (v : Nat) (out : List α) :
    calculateInputLogprobs ops L c v out
      = out ++ (tokenPositions c 0).map (emitAt ops L v) := by
  rw [calculateInputLogprobs, processChunk_eq]

lemma foldl_add_range (f : Nat → ℝ) :
    ∀ (n : Nat) (a : ℝ),
      (List.range n).foldl (fun s j => s + f j) a = a + ∑ j ∈ Finset.range n, f j := by
  intro n
  induction n with
  | zero => intro a; simp
  | succ n ih =>
      intro a
      rw [List.range_succ, List.foldl_append, ih, Finset.sum_range_succ]
      simp [add_assoc]

lemma sum_exp_pos (r : List ℝ) (v : Nat) (hv : 0 < v) :
    0 < ∑ j ∈ Finset.range v, Real.exp (r.getD j 0) :=
  Finset.sum_pos (fun j _ => Real.exp_pos _)
    (Finset.nonempty_range_iff.mpr hv.ne')

lemma logSumExp_shift (r : List ℝ) (v : Nat) (hv : 0 < v) (m : ℝ) :
    Real.log (∑ j ∈ Finset.range v, Real.exp (r.getD j 0 - m)) + m
      = Real.log (∑ j ∈ Finset.range v, Real.exp (r.getD j 0)) := by
  have hsum : ∑ j ∈ Finset.range v, Real.exp (r.getD j 0 - m)
      = (∑ j ∈ Finset.range v, Real.exp (r.getD j 0)) / Real.exp m := by
    rw [Finset.sum_div]
    exact Finset.sum_congr rfl fun _ _ => Real.exp_sub _ _
  rw [hsum, Real.log_div (sum_exp_pos r v hv).ne' (Real.exp_ne_zero m),
    Real.log_exp]
  ring

lemma scoreToken_real (r : List ℝ) (v t : Nat) (hv : 0 < v) :
    scoreToken realOps r v t
      = r.getD t 0 - Real.log (∑ j ∈ Finset.range v, Real.exp (r.getD j 0)) := by
  rw [scoreToken]
  have hops : realOps.exp = Real.exp := rfl
  have hlog : realOps.log = Real.log := rfl
  rw [hops, hlog, foldl_add_range (fun j => Real.exp (r.getD j 0 - (rowMaxVal r v).getD 0)) v 0,
    zero_add, logSumExp_shift r v hv ((rowMaxVal r v).getD 0)]

/-- Claim C1: a token at global sequence position p > 0 (positions counted
from 0 across all segments, an image item consuming IMAGE_EMBED_SIZE of
them) is scored from logits row p - 1, never from row p; in particular the
first token of a run that follows an image item is scored normally from the
preceding row.  Entry k of the output corresponds to pair k of
tokenPositions, and when its position p is positive the entry equals the
score of the token against row p - 1 of the buffer. -/
theorem c1_row_selection (ops : ScalarOps α) (L : List α) (c : List ChunkItem)
    (v k p t : Nat)
    (hk : (tokenPositions c 0)[k]? = some (p, t)) (hp : 0 < p) :
    (calculateInputLogprobs ops L c v [])[k]?
      = some (scoreToken ops (logitRow L v (p - 1)) v t) := by
  rw [calculateInputLogprobs_eq, List.nil_append, List.getElem?_map, hk]
  simp [emitAt, hp]

/-- Concrete instance for c1_row_selection: the token after an image item
sits at global position 6 and is scored from row 5. -/
theorem c1_row_selection_witness :
    (tokenPositions [ChunkItem.tokens [0],
        ChunkItem.image (ImageURL.mk (String.mk [])),
        ChunkItem.tokens [1]] 0)[1]? = some (6, 1)
    ∧ 0 < 6
    ∧ (calculateInputLogprobs intOps (List.replicate 18 (0 : ℤ))
        [ChunkItem.tokens [0], ChunkItem.image (ImageURL.mk (String.mk [])),
          ChunkItem.tokens [1]] 3 [])[1]?
      = some (scoreToken intOps (logitRow (List.replicate 18 (0 : ℤ)) 3 5) 3 1) :=
  ⟨by decide, by decide,
    c1_row_selection intOps (List.replicate 18 (0 : ℤ))
      [ChunkItem.tokens [0], ChunkItem.image (ImageURL.mk (String.mk [])),
        ChunkItem.tokens [1]] 3 1 6 1 (by decide) (by decide)⟩

/-- Claim C4: when the first segment of the chunk is a non-empty token run,
the first emitted value is the sentinel 0 for global position 0. -/
theorem c4_first_sentinel (ops : ScalarOps α) (L : List α) (v t : Nat)
    (ts : List Nat) (rest : List ChunkItem) :
    (calculateInputLogprobs ops L (ChunkItem.tokens (t :: ts) :: rest) v
      []).head? = some 0 := by
  rw [calculateInputLogprobs_eq, List.nil_append]
  simp [tokenPositions, runPositions, emitAt]

/-- Claim C5: an image item advances the cursor by exactly
IMAGE_EMBED_SIZE, which is 5, reads nothing from the buffer, and leaves the
output untouched: processing it reduces to processing the remaining items
with the cursor moved forward. -/
theorem c5_embedding_skip (ops : ScalarOps α) (L : List α) (v : Nat)
    (iurl : ImageURL) (rest : List ChunkItem) (o : Nat) (out : List α) :
    processChunk ops L v (ChunkItem.image iurl :: rest) o out
      = processChunk ops L v rest (o + IMAGE_EMBED_SIZE) out
    ∧ IMAGE_EMBED_SIZE = 5 :=
  ⟨rfl, rfl⟩

/-- Claim C6: the output length equals the total number of token ids across
the token runs, whatever the number and placement of image items; a chunk
of only image items has totalTokens 0, so its output is empty. -/
theorem c6_length_invariant (ops : ScalarOps α) (L : List α)
    (c : List ChunkItem) (v : Nat) :
    (calculateInputLogprobs ops L c v []).length = totalTokens c := by
  rw [calculateInputLogprobs_eq, List.nil_append]
  simp [tokenPositions_length]

/-- Claim C9: the call only appends to the output array: the result is the
prior contents followed by the entries the call emits, which do not depend
on the prior contents; the buffer and the chunk are plain inputs of the
pure translation and cannot be written. -/
theorem c9_append_only (ops : ScalarOps α) (L : List α) (c : List ChunkItem)
    (v : Nat) (acc : List α) :
    calculateInputLogprobs ops L c v acc
      = acc ++ calculateInputLogprobs ops L c v [] := by
  rw [calculateInputLogprobs_eq, calculateInputLogprobs_eq, List.nil_append]

/-- Claim C8: two calls on identical buffer, chunk, vocabulary size and
prior output contents produce identical results: the translation is a
function of exactly these inputs and reads no other state. -/
theorem c8_determinism (ops : ScalarOps α) (L1 L2 : List α)
    (c1 c2 : List ChunkItem) (v1 v2 : Nat) (a1 a2 : List α)
    (hL : L1 = L2) (hc : c1 = c2) (hv : v1 = v2) (ha : a1 = a2) :
    calculateInputLogprobs ops L1 c1 v1 a1
      = calculateInputLogprobs ops L2 c2 v2 a2 := by
  subst hL; subst hc; subst hv; subst ha; rfl

/-- Concrete instance for c8_determinism. -/
theorem c8_determinism_witness :
    calculateInputLogprobs intOps [(0 : ℤ), 0, 0] [ChunkItem.tokens [0, 1]] 3 []
      = calculateInputLogprobs intOps [(0 : ℤ), 0, 0] [ChunkItem.tokens [0, 1]] 3 [] :=
  c8_determinism intOps [(0 : ℤ), 0, 0] [(0 : ℤ), 0, 0]
    [ChunkItem.tokens [0, 1]] [ChunkItem.tokens [0, 1]] 3 3 [] [] rfl rfl rfl rfl

/-- Claim C2 counterexample: a layout claiming 12 sequence positions
against a buffer of 6 rows of 3 entries does not make the call fail, and
the call does not stop short: it completes and emits one entry per token
(the entry for the token at position 11 is computed from out-of-range
reads, which in JavaScript yield NaN).  No ContractViolation and no other
failure exists in the source, refuting the claimed hard failure. -/
theorem c2_counterexample :
    chunkPositions [ChunkItem.tokens [0],
        ChunkItem.image (ImageURL.mk (String.mk [])),
        ChunkItem.image (ImageURL.mk (String.mk [])),
        ChunkItem.tokens [1]] = 12
    ∧ (List.replicate 18 (0 : ℤ)).length = 6 * 3
    ∧ (calculateInputLogprobs intOps (List.replicate 18 (0 : ℤ))
        [ChunkItem.tokens [0], ChunkItem.image (ImageURL.mk (String.mk [])),
          ChunkItem.image (ImageURL.mk (String.mk [])),
          ChunkItem.tokens [1]] 3 []).length = 2 := by
  refine ⟨by decide, by decide, ?_⟩
  decide

/-- Claim C2 amended: the source performs no bounds validation at all;
when the chunk layout claims more positions than the buffer holds, the
call still completes the full scoring pass and emits exactly one entry
per token (in JavaScript the overrunning entries are NaN from undefined
reads), and no ContractViolation or any other failure is raised. -/
theorem c2_overrun_completes (ops : ScalarOps α) (L : List α)
    (c : List ChunkItem) (v : Nat) (h : L.length < chunkPositions c * v) :
    (calculateInputLogprobs ops L c v []).length = totalTokens c := by
  rw [calculateInputLogprobs_eq, List.nil_append]
  simp [tokenPositions_length]

/-- Concrete instance for c2_overrun_completes, at the layout of the
counterexample. -/
theorem c2_overrun_completes_witness :
    (List.replicate 18 (0 : ℤ)).length
        < chunkPositions [ChunkItem.tokens [0],
            ChunkItem.image (ImageURL.mk (String.mk [])),
            ChunkItem.image (ImageURL.mk (String.mk [])),
            ChunkItem.tokens [1]] * 3
    ∧ (calculateInputLogprobs intOps (List.replicate 18 (0 : ℤ))
        [ChunkItem.tokens [0], ChunkItem.image (ImageURL.mk (String.mk [])),
          ChunkItem.image (ImageURL.mk (String.mk [])),
          ChunkItem.tokens [1]] 3 []).length
      = totalTokens [ChunkItem.tokens [0],
          ChunkItem.image (ImageURL.mk (String.mk [])),
          ChunkItem.image (ImageURL.mk (String.mk [])),
          ChunkItem.tokens [1]] :=
  ⟨by decide,
    c2_overrun_completes intOps (List.replicate 18 (0 : ℤ))
      [ChunkItem.tokens [0], ChunkItem.image (ImageURL.mk (String.mk [])),
        ChunkItem.image (ImageURL.mk (String.mk [])),
        ChunkItem.tokens [1]] 3 (by decide)⟩

/-- True when some token id of some token run of the chunk is outside the
vocabulary range. -/
def hasOutOfRangeToken (c : List ChunkItem) (v : Nat) : Bool :=
  c.any fun item =>
    match item with
    | ChunkItem.tokens toks => toks.any fun t => decide (v ≤ t)
    | ChunkItem.image _ => false

/-- Claim C7 counterexample: token id 5 with vocabSize 3 lies outside the
vocabulary, yet the call neither fails nor stops: it completes and emits
an entry for the out-of-range token as well (in JavaScript that entry is
NaN, from the undefined read at tokenLogits[5]).  The source contains no
range check and no failure path, refuting the claimed hard failure. -/
theorem c7_counterexample :
    hasOutOfRangeToken [ChunkItem.tokens [0, 5]] 3 = true
    ∧ (calculateInputLogprobs intOps (List.replicate 6 (0 : ℤ))
        [ChunkItem.tokens [0, 5]] 3 []).length = 2 := by
  refine ⟨by decide, ?_⟩
  decide

/-- Claim C7 amended: the source never validates token ids; when a token
id lies outside the vocabulary range the call does not fail, it completes
the full pass and still emits one entry per token (the entry for the bad
token is NaN in JavaScript, from an undefined read, not an exception). -/
theorem c7_bad_token_completes (ops : ScalarOps α) (L : List α)
    (c : List ChunkItem) (v : Nat) (h : hasOutOfRangeToken c v = true) :
    (calculateInputLogprobs ops L c v []).length = totalTokens c := by
  rw [calculateInputLogprobs_eq, List.nil_append]
  simp [tokenPositions_length]

/-- Concrete instance for c7_bad_token_completes. -/
theorem c7_bad_token_completes_witness :
    hasOutOfRangeToken [ChunkItem.tokens [0, 5]] 3 = true
    ∧ (calculateInputLogprobs intOps (List.replicate 6 (0 : ℤ))
        [ChunkItem.tokens [0, 5]] 3 []).length
      = totalTokens [ChunkItem.tokens [0, 5]] :=
  ⟨by decide,
    c7_bad_token_completes intOps (List.replicate 6 (0 : ℤ))
      [ChunkItem.tokens [0, 5]] 3 (by decide)⟩

lemma tokenPositions_strip (c1 : List ChunkItem) :
    ∀ c2 : List ChunkItem, c1.map stripItem = c2.map stripItem →
      ∀ o, tokenPositions c1 o = tokenPositions c2 o := by
  induction c1 with
  | nil =>
      intro c2 h o
      cases c2 with
      | nil => rfl
      | cons b bs => simp at h
  | cons a as ih =>
      intro c2 h o
      cases c2 with
      | nil => simp at h
      | cons b bs =>
          simp only [List.map_cons, List.cons.injEq] at h
          obtain ⟨h1, h2⟩ := h
          cases a with
          | tokens ta =>
              cases b with
              | tokens tb =>
                  simp only [stripItem, Option.some.injEq] at h1
                  subst h1
                  simp [tokenPositions, ih bs h2]
              | image iurl => simp [stripItem] at h1
          | image iurl =>
              cases b with
              | tokens tb => simp [stripItem] at h1
              | image iurl2 => simp [tokenPositions, ih bs h2]

/-- Claim C10: the output never depends on the payload of the image
items, because the source classifies an item only by Array.isArray and
never reads the fields of a non-array item: two chunks whose images may
carry different urls but that agree once image payloads are erased give
identical outputs on the same buffer and vocabulary size. -/
theorem c10_payload_independence (ops : ScalarOps α) (L : List α)
    (c1 c2 : List ChunkItem) (v : Nat) (acc : List α)
    (h : c1.map stripItem = c2.map stripItem) :
    calculateInputLogprobs ops L c1 v acc
      = calculateInputLogprobs ops L c2 v acc := by
  rw [calculateInputLogprobs_eq, calculateInputLogprobs_eq,
    tokenPositions_strip c1 c2 h]

/-- Concrete instance for c10_payload_independence: two chunks whose
image items carry different urls give equal outputs. -/
theorem c10_payload_independence_witness :
    (List.map stripItem [ChunkItem.image (ImageURL.mk (String.mk ['a'])),
        ChunkItem.tokens [0, 1]]
      = List.map stripItem [ChunkItem.image (ImageURL.mk (String.mk ['b'])),
          ChunkItem.tokens [0, 1]])
    ∧ calculateInputLogprobs intOps (List.replicate 21 (0 : ℤ))
        [ChunkItem.image (ImageURL.mk (String.mk ['a'])),
          ChunkItem.tokens [0, 1]] 3 []
      = calculateInputLogprobs intOps (List.replicate 21 (0 : ℤ))
        [ChunkItem.image (ImageURL.mk (String.mk ['b'])),
          ChunkItem.tokens [0, 1]] 3 [] :=
  ⟨by decide,
    c10_payload_independence intOps (List.replicate 21 (0 : ℤ))
      [ChunkItem.image (ImageURL.mk (String.mk ['a'])), ChunkItem.tokens [0, 1]]
      [ChunkItem.image (ImageURL.mk (String.mk ['b'])), ChunkItem.tokens [0, 1]]
      3 [] (by decide)⟩

/-- Claim C3: over exact real arithmetic, with the genuine exponential
and logarithm, the score of a valid token t against a row r of length
vocabSize equals r[t] minus the shifted log-sum-exp, for any shift m (the
value of the expression does not depend on the shift, so in particular it
equals the expression at the row maximum computed by the source), and its
exponential is exactly softmax(r)[t]. -/
theorem c3_log_softmax (r : List ℝ) (v t : Nat) (m : ℝ) (hv : 0 < v)
    (hr : r.length = v) (ht : t < v) :
    scoreToken realOps r v t
      = r.getD t 0
        - (Real.log (∑ j ∈ Finset.range v, Real.exp (r.getD j 0 - m)) + m)
    ∧ Real.exp (scoreToken realOps r v t)
      = Real.exp (r.getD t 0) / ∑ j ∈ Finset.range v, Real.exp (r.getD j 0) := by
  constructor
  · rw [scoreToken_real r v t hv, logSumExp_shift r v hv m]
  · rw [scoreToken_real r v t hv, Real.exp_sub,
      Real.exp_log (sum_exp_pos r v hv)]

/-- Concrete instance for c3_log_softmax at the uniform row of width 4
and shift 0. -/
theorem c3_log_softmax_witness :
    0 < 4 ∧ ([(0 : ℝ), 0, 0, 0]).length = 4 ∧ 1 < 4
    ∧ (scoreToken realOps [(0 : ℝ), 0, 0, 0] 4 1
        = ([(0 : ℝ), 0, 0, 0]).getD 1 0
          - (Real.log (∑ j ∈ Finset.range 4,
              Real.exp (([(0 : ℝ), 0, 0, 0]).getD j 0 - 0)) + 0)
      ∧ Real.exp (scoreToken realOps [(0 : ℝ), 0, 0, 0] 4 1)
        = Real.exp (([(0 : ℝ), 0, 0, 0]).getD 1 0)
          / ∑ j ∈ Finset.range 4, Real.exp (([(0 : ℝ), 0, 0, 0]).getD j 0)) :=
  ⟨by norm_num, by rfl, by norm_num,
    c3_log_softmax [(0 : ℝ), 0, 0, 0] 4 1 0 (by norm_num) (by rfl) (by norm_num)⟩
